import Mathlib

/-!
# Verification of the Bookmark-Manager reconciliation core

Shallow embedding of the state-reconciliation logic of the Bookmark-Manager
repository.  The canonical collection lives in `BookmarkManager.tsx` as the
`bookmarks` React state; all mutations of it are pure list transformations
inside `setBookmarks` updaters, which we transcribe here as Lean functions on
`List Bookmark`.  The API route handlers (the `CommandGateway` of the spec)
are transcribed as pure functions from the request context and the store's
reply to an HTTP-style response.
-/

/-- A bookmark row, after `Database.public.Tables.bookmarks.Row`
(`lib/database.types`).  `created_at` is the store-assigned creation
timestamp (a `timestamptz`); we model the timestamp value as a `Nat`
ordered chronologically. -/
structure Bookmark where
  id : String
  user_id : String
  title : String
  url : String
  created_at : Nat
deriving DecidableEq, Repr

/-- `prev.some((b) => b.id === i)` — does the collection hold a record
with id `i`? -/
def hasId (prev : List Bookmark) (i : String) : Bool :=
  prev.any (fun b => b.id == i)

/-- The insert merge rule.  This exact updater appears three times in
`BookmarkManager.tsx`: the BroadcastChannel INSERT case (lines 74-77), the
realtime `postgres_changes` INSERT handler (lines 116-119), and the gateway
push in `handleAddBookmark` (lines 171-174):
`if (prev.some((b) => b.id === r.id)) return prev; return [r, ...prev]`. -/
def insertBookmark (r : Bookmark) (prev : List Bookmark) : List Bookmark :=
  if hasId prev r.id then prev else r :: prev

/-- The delete merge rule, the updater of the BroadcastChannel DELETE case
(line 80) and of the realtime DELETE handler (line 127):
`prev.filter((b) => b.id !== i)`. -/
def deleteBookmark (i : String) (prev : List Bookmark) : List Bookmark :=
  prev.filter (fun b => b.id != i)

/-- The normalized events consumed by the reconciliation engine (spec §3):
confirmed insert, confirmed delete, and a full authoritative snapshot. -/
inductive Event where
  | inserted (r : Bookmark)
  | deleted (i : String)
  | snapshot (records : List Bookmark)
deriving DecidableEq, Repr

/-- Applying one event to the canonical collection.  `inserted`/`deleted`
are the updaters above; `snapshot rs` is the wholesale replacement
`setBookmarks(data)` performed after a successful refetch (REFETCH case
lines 83-85, visibility handler lines 146-148). -/
def applyEvent : Event → List Bookmark → List Bookmark
  | Event.inserted r, prev => insertBookmark r prev
  | Event.deleted i, prev => deleteBookmark i prev
  | Event.snapshot rs, _ => rs

/-- Applying a sequence of events in arrival order. -/
def applyEvents (evs : List Event) (st : List Bookmark) : List Bookmark :=
  evs.foldl (fun s e => applyEvent e s) st

/-- Number of records in the collection carrying id `i`. -/
def countId (i : String) (st : List Bookmark) : Nat :=
  (st.filter (fun b => b.id == i)).length

/-- The ordering invariant of the canonical collection (spec §3): records
appear in order of `created_at` descending. -/
def sortedByCreatedDesc (st : List Bookmark) : Prop :=
  st.Pairwise (fun a b => b.created_at ≤ a.created_at)

/-! ## The command gateway (API route handlers + their callers)

The DELETE handler of `app/api/bookmarks/route.ts` runs, in order: the
session check (401), the `id` query-parameter check (400), the authoritative
`delete({ count: 'exact' })` round trip (500 on store error), the
zero-affected-rows check (404), and finally the success body.  We model the
request context by the optional session and optional id parameter, and the
store's reply by `String ⊕ Nat` (error message, or exact affected-row
count). -/

/-- JSON body of a DELETE response: `{ error: msg }` or
`{ success: true, deletedId: id }`. -/
inductive DeleteBody where
  | err (msg : String)
  | success (deletedId : String)
deriving DecidableEq, Repr

/-- An HTTP response of the DELETE route: status code plus JSON body. -/
structure DeleteResponse where
  status : Nat
  body : DeleteBody
deriving DecidableEq, Repr

/-- The DELETE route handler of `app/api/bookmarks/route.ts`. -/
def deleteRoute (session : Option String) (idParam : Option String)
    (storeReply : String ⊕ Nat) : DeleteResponse :=
  match session with
  | none => ⟨401, DeleteBody.err "Unauthorized"⟩
  | some _ =>
    match idParam with
    | none => ⟨400, DeleteBody.err "id is required"⟩
    | some i =>
      match storeReply with
      | Sum.inl msg => ⟨500, DeleteBody.err msg⟩
      | Sum.inr count =>
        if count = 0 then ⟨404, DeleteBody.err "Bookmark not found"⟩
        else ⟨200, DeleteBody.success i⟩

/-- `Response.ok` of the fetch API: status in the range 200-299. -/
def resOk (r : DeleteResponse) : Bool :=
  decide (200 ≤ r.status ∧ r.status ≤ 299)

/-- Messages of the `bookmarks-sync` BroadcastChannel (`BroadcastMsg` in
`BookmarkManager.tsx` lines 17-20). -/
inductive BroadcastMsg where
  | insertMsg (bookmark : Bookmark)
  | deleteMsg (i : String)
  | refetchMsg
deriving DecidableEq, Repr

/-- Side effects a gateway handler performs after its round trip resolves,
in the order it performs them: a `setBookmarks` with the resulting
collection, or a `broadcast.postMessage`. -/
inductive GatewayAction where
  | setState (st : List Bookmark)
  | publish (m : BroadcastMsg)
deriving DecidableEq, Repr

/-- `handleAddBookmark` (`BookmarkManager.tsx` lines 156-179), given the
resolved POST response: a non-ok response is modeled as
`Except.error msg` (the parsed `err.error || 'Failed to add bookmark'`,
which the handler re-throws), an ok response as `Except.ok data` with the
store-confirmed record.  On success the handler first applies the insert
merge rule to the collection and then publishes the INSERT broadcast, so
its action trace lists `setState` before `publish`.  No action at all is
produced before or without a successful response. -/
def handleAddBookmark (res : Except String Bookmark) (st : List Bookmark) :
    Except String (List GatewayAction) :=
  match res with
  | Except.error msg => Except.error msg
  | Except.ok data =>
      Except.ok [GatewayAction.setState (insertBookmark data st),
                 GatewayAction.publish (BroadcastMsg.insertMsg data)]

/-- The message thrown by `handleDeleteBookmark` on a non-ok response:
`result.error || 'Failed to delete bookmark'`. -/
def deleteFailMsg (res : DeleteResponse) : String :=
  match res.body with
  | DeleteBody.err m => m
  | DeleteBody.success _ => "Failed to delete bookmark"

/-- `handleDeleteBookmark` (`BookmarkManager.tsx` lines 182-202), given the
resolved DELETE response: on `!res.ok` it throws `deleteFailMsg`;
otherwise it removes the id from the collection and then publishes the
DELETE broadcast — `setState` strictly before `publish`, and nothing at
all before or without a successful response. -/
def handleDeleteBookmark (i : String) (res : DeleteResponse)
    (st : List Bookmark) : Except String (List GatewayAction) :=
  if !resOk res then
    Except.error (deleteFailMsg res)
  else
    Except.ok [GatewayAction.setState (deleteBookmark i st),
               GatewayAction.publish (BroadcastMsg.deleteMsg i)]

/-! ## The refetch adapter -/

/-- `fetchBookmarks` (`BookmarkManager.tsx` lines 35-47), given the outcome
of the underlying `fetch('/api/bookmarks')`: a network failure or non-ok
response (both end in the catch block) yields `null`, an ok response yields
the fetched list. -/
def fetchBookmarks (netReply : Except String (List Bookmark)) :
    Option (List Bookmark) :=
  match netReply with
  | Except.error _ => none
  | Except.ok data => some data

/-- The refetch continuation `(data) => { if (data) setBookmarks(data) }`
shared by the REFETCH broadcast case (lines 83-85) and the visibility
handler (lines 146-148): `null` is falsy and leaves the collection alone;
any array (even empty) replaces it wholesale. -/
def applyRefetch (data : Option (List Bookmark)) (st : List Bookmark) :
    List Bookmark :=
  match data with
  | none => st
  | some d => d

/-- The initial-fetch continuation (lines 52-57):
`if (!cancelled && data) setBookmarks(data)`. -/
def initialLoadUpdate (cancelled : Bool) (data : Option (List Bookmark))
    (st : List Bookmark) : List Bookmark :=
  if cancelled then st else applyRefetch data st

/-! ## The change-feed subscription and its epochs -/

/-- A realtime `postgres_changes` payload, tagged with the epoch (mount id)
of the subscription activation that delivered it. -/
structure FeedEvent where
  epoch : Nat
  event : Event
deriving DecidableEq, Repr

/-- The `cancelled` flag captured by the realtime-subscription effect for
activation `epoch` (`BookmarkManager.tsx` lines 105, 115, 126, 131, 136):
the flag is set by that activation's cleanup, which has already run
whenever a newer activation is current, so with `current` the epoch of the
live activation the flag of `epoch` reads `epoch < current`. -/
def cancelledFlag (current : Nat) (epoch : Nat) : Bool :=
  decide (epoch < current)

/-- A realtime handler body (lines 114-120 and 125-128): `if (cancelled)
return` and otherwise apply the payload's merge rule. -/
def applyFeedEvent (current : Nat) (fe : FeedEvent) (st : List Bookmark) :
    List Bookmark :=
  if cancelledFlag current fe.epoch then st else applyEvent fe.event st

/-- Applying a sequence of change-feed payloads in arrival order. -/
def applyFeedEvents (current : Nat) (fes : List FeedEvent)
    (st : List Bookmark) : List Bookmark :=
  fes.foldl (fun s fe => applyFeedEvent current fe s) st

/-! ## The subscription lifecycle (mount counter and channel names) -/

/-- `const mountId = ++mountCounter` (line 106): from counter value `c`,
the next activation stores `c + 1` and is assigned epoch `c + 1`. -/
def nextActivation (counter : Nat) : Nat × Nat :=
  (counter + 1, counter + 1)

/-- The epochs handed to `n` successive activations starting from counter
value `counter`, in activation order. -/
def mountIds (counter : Nat) : Nat → List Nat
  | 0 => []
  | Nat.succ n => (nextActivation counter).2 :: mountIds (nextActivation counter).1 n

/-- The subscription channel name (line 107):
`bookmarks-rt-${userId}-${mountId}`. -/
def channelName (userId : String) (mountId : Nat) : String :=
  "bookmarks-rt-" ++ userId ++ "-" ++ toString mountId

/-! ## Basic facts about the merge rules -/

theorem hasId_iff_exists (prev : List Bookmark) (i : String) :
    hasId prev i = true ↔ ∃ b ∈ prev, b.id = i := by
  simp [hasId, List.any_eq_true]

theorem countId_eq_zero_iff (i : String) (st : List Bookmark) :
    countId i st = 0 ↔ hasId st i = false := by
  simp [countId, hasId, List.length_eq_zero, List.filter_eq_nil_iff,
    List.any_eq_true]

theorem insertBookmark_of_hasId (r : Bookmark) (st : List Bookmark)
    (h : hasId st r.id = true) : insertBookmark r st = st := by
  simp [insertBookmark, h]

theorem insertBookmark_of_not_hasId (r : Bookmark) (st : List Bookmark)
    (h : hasId st r.id = false) : insertBookmark r st = r :: st := by
  simp [insertBookmark, h]

theorem countId_insertBookmark_self (r : Bookmark) (st : List Bookmark) :
    countId r.id (insertBookmark r st) =
      if hasId st r.id then countId r.id st else countId r.id st + 1 := by
  by_cases h : hasId st r.id
  · simp [insertBookmark_of_hasId r st h, h]
  · simp only [Bool.not_eq_true] at h
    simp [insertBookmark_of_not_hasId r st h, h, countId]

theorem countId_pos_of_hasId (i : String) (st : List Bookmark)
    (h : hasId st i = true) : 0 < countId i st := by
  rcases Nat.eq_zero_or_pos (countId i st) with h0 | hpos
  · rw [(countId_eq_zero_iff i st).mp h0] at h
    cases h
  · exact hpos

theorem deleteBookmark_of_not_hasId (i : String) (st : List Bookmark)
    (h : hasId st i = false) : deleteBookmark i st = st := by
  rw [deleteBookmark, List.filter_eq_self]
  intro b hb
  simp only [hasId, List.any_eq_false] at h
  simpa using h b hb

theorem hasId_deleteBookmark (i : String) (st : List Bookmark) :
    hasId (deleteBookmark i st) i = false := by
  simp [hasId, deleteBookmark, List.any_eq_false]

theorem deleteBookmark_idem (i : String) (st : List Bookmark) :
    deleteBookmark i (deleteBookmark i st) = deleteBookmark i st := by
  simp [deleteBookmark, List.filter_filter]

/-! ## Claim theorems -/

/-- **C2** Snapshot convergence: any interleaving of events followed by a
`Snapshot rs` leaves the canonical collection equal to `rs` exactly — the
snapshot replaces the collection wholesale. -/
theorem snapshot_convergence (evs : List Event) (st rs : List Bookmark) :
    applyEvents (evs ++ [Event.snapshot rs]) st = rs := by
  simp [applyEvents, List.foldl_append, applyEvent]

/-- **C6** Delete semantics and idempotence: applying `Deleted i` when the
id is absent is a no-op (not an error), one application makes the id
absent, and any number of further applications leaves the collection
unchanged. -/
theorem deleted_semantics_idempotent (i : String) (st : List Bookmark) :
    (hasId st i = false → applyEvent (Event.deleted i) st = st) ∧
    hasId (applyEvent (Event.deleted i) st) i = false ∧
    ∀ n : Nat,
      (fun s => applyEvent (Event.deleted i) s)^[n]
          (applyEvent (Event.deleted i) st)
        = applyEvent (Event.deleted i) st := by
  refine ⟨fun h => deleteBookmark_of_not_hasId i st h,
    hasId_deleteBookmark i st, ?_⟩
  intro n
  induction n with
  | zero => rfl
  | succ n ih =>
      rw [Function.iterate_succ_apply]
      simpa [applyEvent, deleteBookmark_idem] using ih

/-- Witness for `deleted_semantics_idempotent` at a concrete input: the
collection `[]` does not contain id `"9"`, and `Deleted "9"` leaves it
unchanged. -/
theorem deleted_semantics_idempotent_witness :
    applyEvent (Event.deleted "9") ([] : List Bookmark) = [] :=
  (deleted_semantics_idempotent "9" []).1 (by decide)

/-- **C4** Zero-effect delete is an explicit failure: with a valid session
and id parameter, a store reply of zero affected rows makes the DELETE
route answer 404 `Bookmark not found`; that response is not ok, so the
caller `handleDeleteBookmark` throws the error and performs no state
mutation at all. -/
theorem zero_effect_delete_not_found (u i : String) (st : List Bookmark) :
    (deleteRoute (some u) (some i) (Sum.inr 0)).status = 404 ∧
    (deleteRoute (some u) (some i) (Sum.inr 0)).body
      = DeleteBody.err "Bookmark not found" ∧
    resOk (deleteRoute (some u) (some i) (Sum.inr 0)) = false ∧
    handleDeleteBookmark i (deleteRoute (some u) (some i) (Sum.inr 0)) st
      = Except.error "Bookmark not found" := by
  refine ⟨rfl, rfl, by simp [deleteRoute, resOk], ?_⟩
  simp [handleDeleteBookmark, deleteRoute, resOk, deleteFailMsg]

/-- **C10** Snapshot-fetch failure is absorbed atomically: a failed or
non-ok fetch makes `fetchBookmarks` return `null`, and each caller (the
REFETCH/visibility continuation and the initial-load continuation, for
either value of its `cancelled` flag) leaves the canonical collection
exactly as it was. -/
theorem failed_refetch_absorbed (msg : String) (st : List Bookmark)
    (c : Bool) :
    fetchBookmarks (Except.error msg) = none ∧
    applyRefetch (fetchBookmarks (Except.error msg)) st = st ∧
    initialLoadUpdate c (fetchBookmarks (Except.error msg)) st = st := by
  refine ⟨rfl, rfl, ?_⟩
  cases c <;> simp [initialLoadUpdate, applyRefetch, fetchBookmarks]

/-- Folding further `Inserted` events that all carry id `r.id` over a
collection already holding that id exactly once keeps its count at one. -/
theorem countId_applyEvents_same_inserts (r : Bookmark) (evs : List Event)
    (st : List Bookmark)
    (hins : ∀ e ∈ evs, ∃ s, e = Event.inserted s ∧ s.id = r.id)
    (h1 : countId r.id st = 1) :
    countId r.id (applyEvents evs st) = 1 := by
  induction evs generalizing st with
  | nil => exact h1
  | cons e rest ih =>
      obtain ⟨s, rfl, hsid⟩ := hins _ (List.mem_cons_self _ _)
      have hhas : hasId st s.id = true := by
        rw [hsid]
        cases hh : hasId st r.id with
        | true => rfl
        | false =>
            rw [← countId_eq_zero_iff] at hh
            omega
      have hstep : applyEvents (Event.inserted s :: rest) st
          = applyEvents rest st := by
        simp [applyEvents, applyEvent, insertBookmark_of_hasId s st hhas]
      rw [hstep]
      exact ih st (fun e he => hins e (List.mem_cons_of_mem _ he)) h1

/-- **C1** Insert idempotence: applying any nonempty sequence of
`Inserted` events that all carry id `r.id` — in any order and via any
channel, since the broadcast INSERT case, the realtime INSERT handler and
the gateway push all run the same updater `insertBookmark` — to a
collection holding at most one record with that id yields a collection
holding exactly one record with that id; moreover an `Inserted` whose id
is already present leaves the collection unchanged. -/
theorem inserted_idempotent (r : Bookmark) (evs : List Event)
    (st : List Bookmark) (hne : evs ≠ [])
    (hins : ∀ e ∈ evs, ∃ s, e = Event.inserted s ∧ s.id = r.id)
    (hst : countId r.id st ≤ 1) :
    countId r.id (applyEvents evs st) = 1 ∧
    ∀ (s : Bookmark) (prev : List Bookmark), hasId prev s.id = true →
      applyEvent (Event.inserted s) prev = prev := by
  constructor
  · cases evs with
    | nil => exact absurd rfl hne
    | cons e rest =>
        obtain ⟨s, rfl, hsid⟩ := hins _ (List.mem_cons_self _ _)
        have hstep : countId r.id (insertBookmark s st) = 1 := by
          have hc := countId_insertBookmark_self s st
          rw [hsid] at hc
          cases hh : hasId st r.id with
          | false =>
              rw [hc, if_neg (by simp [hh])]
              rw [← countId_eq_zero_iff] at hh
              omega
          | true =>
              have hpos := countId_pos_of_hasId r.id st hh
              rw [hc, if_pos hh]
              omega
        have harr : applyEvents (Event.inserted s :: rest) st
            = applyEvents rest (insertBookmark s st) := rfl
        rw [harr]
        exact countId_applyEvents_same_inserts r rest _
          (fun e he => hins e (List.mem_cons_of_mem _ he)) hstep
  · exact fun s prev h => insertBookmark_of_hasId s prev h

/-- Witness for `inserted_idempotent`: two `Inserted` events with id `"1"`
on the empty collection leave exactly one record with id `"1"`. -/
theorem inserted_idempotent_witness :
    countId "1" (applyEvents
      [Event.inserted ⟨"1", "u", "A", "http://a", 1⟩,
       Event.inserted ⟨"1", "u", "A2", "http://a2", 2⟩] []) = 1 :=
  (inserted_idempotent ⟨"1", "u", "A", "http://a", 1⟩
    [Event.inserted ⟨"1", "u", "A", "http://a", 1⟩,
     Event.inserted ⟨"1", "u", "A2", "http://a2", 2⟩] []
    (by decide)
    (by
      intro e he
      rcases List.mem_cons.mp he with rfl | he2
      · exact ⟨_, rfl, rfl⟩
      · rcases List.mem_cons.mp he2 with rfl | he3
        · exact ⟨_, rfl, rfl⟩
        · cases he3)
    (by decide)).1

/-- **C3** Stale-epoch suppression: change-feed payloads whose epoch is
older than the live activation's epoch see their `cancelled` flag set, so
applying any sequence of them never changes the canonical collection. -/
theorem stale_epoch_suppression (current : Nat) (fes : List FeedEvent)
    (st : List Bookmark) (h : ∀ fe ∈ fes, fe.epoch < current) :
    applyFeedEvents current fes st = st := by
  revert h
  induction fes generalizing st with
  | nil => exact fun _ => rfl
  | cons fe rest ih =>
      intro h
      have h1 : applyFeedEvent current fe st = st := by
        simp [applyFeedEvent, cancelledFlag, h fe (List.mem_cons_self _ _)]
      have harr : applyFeedEvents current (fe :: rest) st
          = applyFeedEvents current rest (applyFeedEvent current fe st) := rfl
      rw [harr, h1]
      exact ih st (fun g hg => h g (List.mem_cons_of_mem _ hg))

/-- Witness for `stale_epoch_suppression`: an epoch-1 delete arriving while
epoch 2 is live leaves the collection untouched. -/
theorem stale_epoch_suppression_witness :
    applyFeedEvents 2 [⟨1, Event.deleted "1"⟩]
      [(⟨"1", "u", "A", "http://a", 1⟩ : Bookmark)]
      = [(⟨"1", "u", "A", "http://a", 1⟩ : Bookmark)] :=
  stale_epoch_suppression 2 [⟨1, Event.deleted "1"⟩]
    [(⟨"1", "u", "A", "http://a", 1⟩ : Bookmark)] (by decide)

/-- **C7** No optimistic mutation: each gateway handler performs no action
at all when its authoritative round trip fails (it rethrows the error and
the canonical collection stays as it was), and on success its action trace
is exactly the confirmed merge-rule `setState` followed — in that order —
by the broadcast publish of the confirmed record or id. -/
theorem gateway_no_optimistic_mutation (r : Bookmark) (msg i : String)
    (res : DeleteResponse) (st : List Bookmark) :
    handleAddBookmark (Except.error msg) st = Except.error msg ∧
    handleAddBookmark (Except.ok r) st
      = Except.ok [GatewayAction.setState (insertBookmark r st),
                   GatewayAction.publish (BroadcastMsg.insertMsg r)] ∧
    (resOk res = false →
      handleDeleteBookmark i res st = Except.error (deleteFailMsg res)) ∧
    (resOk res = true →
      handleDeleteBookmark i res st
        = Except.ok [GatewayAction.setState (deleteBookmark i st),
                     GatewayAction.publish (BroadcastMsg.deleteMsg i)]) := by
  refine ⟨rfl, rfl, fun h => ?_, fun h => ?_⟩ <;>
    simp [handleDeleteBookmark, h]

/-- Witness for `gateway_no_optimistic_mutation`: a 200 DELETE response on
the empty collection yields the remove-then-publish trace. -/
theorem gateway_no_optimistic_mutation_witness :
    handleDeleteBookmark "1" ⟨200, DeleteBody.success "1"⟩ []
      = Except.ok [GatewayAction.setState (deleteBookmark "1" []),
                   GatewayAction.publish (BroadcastMsg.deleteMsg "1")] :=
  (gateway_no_optimistic_mutation ⟨"1", "u", "A", "http://a", 1⟩ "m" "1"
    ⟨200, DeleteBody.success "1"⟩ []).2.2.2 (by decide)

/-- Every record of the collection makes `hasId` true for its own id. -/
theorem hasId_of_mem {b : Bookmark} {st : List Bookmark} (hb : b ∈ st) :
    hasId st b.id = true := by
  simp only [hasId, List.any_eq_true, beq_iff_eq]
  exact ⟨b, hb, rfl⟩

theorem hasId_cons (r : Bookmark) (st : List Bookmark) (i : String) :
    hasId (r :: st) i = ((r.id == i) || hasId st i) := by
  simp [hasId]

/-- **C5 (counterexample)** The insert handlers always prepend, so an
`Inserted` with a fresh id but an older `created_at` than the head lands
in front of a newer record: starting from the descending-ordered
collection `[B]` (created at 5), inserting `A` (fresh id, created at 1)
yields `[A, B]`, which is not ordered by `created_at` descending. -/
theorem inserted_breaks_order_counterexample :
    sortedByCreatedDesc [⟨"2", "u", "B", "http://b", 5⟩] ∧
    hasId [(⟨"2", "u", "B", "http://b", 5⟩ : Bookmark)] "1" = false ∧
    insertBookmark ⟨"1", "u", "A", "http://a", 1⟩
        [⟨"2", "u", "B", "http://b", 5⟩]
      = [⟨"1", "u", "A", "http://a", 1⟩, ⟨"2", "u", "B", "http://b", 5⟩] ∧
    ¬ sortedByCreatedDesc
        [⟨"1", "u", "A", "http://a", 1⟩, ⟨"2", "u", "B", "http://b", 5⟩] := by
  refine ⟨?_, by decide, by decide, ?_⟩
  · unfold sortedByCreatedDesc
    decide
  · unfold sortedByCreatedDesc
    decide

/-- **C5 (amended)** Applying `Inserted r` for a new id prepends `r`; this
keeps the collection ordered by `created_at` descending exactly when `r`
is at least as new as every record already present (as a freshly confirmed
record is). -/
theorem inserted_preserves_order_when_newest (r : Bookmark)
    (st : List Bookmark) (hs : sortedByCreatedDesc st)
    (hmax : ∀ b ∈ st, b.created_at ≤ r.created_at) :
    sortedByCreatedDesc (insertBookmark r st) := by
  by_cases h : hasId st r.id = true
  · rwa [insertBookmark_of_hasId r st h]
  · rw [insertBookmark_of_not_hasId r st (by simpa using h)]
    exact List.Pairwise.cons hmax hs

/-- Witness for `inserted_preserves_order_when_newest`: inserting the
newest record (created at 5) in front of `[A]` (created at 1) keeps the
descending order. -/
theorem inserted_preserves_order_when_newest_witness :
    sortedByCreatedDesc
      (insertBookmark ⟨"2", "u", "B", "http://b", 5⟩
        [⟨"1", "u", "A", "http://a", 1⟩]) :=
  inserted_preserves_order_when_newest ⟨"2", "u", "B", "http://b", 5⟩
    [⟨"1", "u", "A", "http://a", 1⟩]
    (by unfold sortedByCreatedDesc; decide) (by decide)

/-- **C8** Order stability of non-`Snapshot` events: for an `Inserted` or
`Deleted` event, the records present both before and after the event (by
id) read off the old collection in the same order as off the new one — no
existing entries are re-ordered. -/
theorem nonsnapshot_preserves_relative_order (e : Event)
    (st : List Bookmark) (h : ∀ rs, e ≠ Event.snapshot rs) :
    st.filter (fun b => hasId (applyEvent e st) b.id)
      = (applyEvent e st).filter (fun b => hasId st b.id) := by
  cases e with
  | snapshot rs => exact absurd rfl (h rs)
  | inserted r =>
      by_cases hr : hasId st r.id = true
      · rw [show applyEvent (Event.inserted r) st = st from
          insertBookmark_of_hasId r st hr]
      · have hr' : hasId st r.id = false := by simpa using hr
        rw [show applyEvent (Event.inserted r) st = r :: st from
          insertBookmark_of_not_hasId r st hr']
        have hl : st.filter (fun b => hasId (r :: st) b.id) = st :=
          List.filter_eq_self.mpr fun b hb => by
            rw [hasId_cons, hasId_of_mem hb, Bool.or_true]
        have hrt : (r :: st).filter (fun b => hasId st b.id)
            = st.filter (fun b => hasId st b.id) := by
          rw [List.filter_cons, hr']
          simp
        have hself : st.filter (fun b => hasId st b.id) = st :=
          List.filter_eq_self.mpr fun b hb => hasId_of_mem hb
        rw [hl, hrt, hself]
  | deleted i =>
      have hL : st.filter (fun b => hasId (deleteBookmark i st) b.id)
          = st.filter (fun b => b.id != i) := by
        apply List.filter_congr
        intro b hb
        by_cases hbi : b.id = i
        · rw [hbi, hasId_deleteBookmark]
          simp
        · have hmem : b ∈ deleteBookmark i st := by
            rw [deleteBookmark, List.mem_filter]
            exact ⟨hb, by simpa using hbi⟩
          rw [hasId_of_mem hmem]
          simp [hbi]
      have hR : (deleteBookmark i st).filter (fun b => hasId st b.id)
          = deleteBookmark i st :=
        List.filter_eq_self.mpr fun b hb =>
          hasId_of_mem (List.mem_filter.mp hb).1
      show st.filter (fun b => hasId (deleteBookmark i st) b.id)
          = (deleteBookmark i st).filter (fun b => hasId st b.id)
      rw [hL, hR]
      rfl

/-- Witness for `nonsnapshot_preserves_relative_order`: a delete of id
`"1"` on the singleton collection. -/
theorem nonsnapshot_preserves_relative_order_witness :
    [(⟨"1", "u", "A", "http://a", 1⟩ : Bookmark)].filter
        (fun b => hasId (applyEvent (Event.deleted "1")
          [(⟨"1", "u", "A", "http://a", 1⟩ : Bookmark)]) b.id)
      = (applyEvent (Event.deleted "1")
          [(⟨"1", "u", "A", "http://a", 1⟩ : Bookmark)]).filter
          (fun b => hasId [(⟨"1", "u", "A", "http://a", 1⟩ : Bookmark)] b.id) :=
  nonsnapshot_preserves_relative_order (Event.deleted "1")
    [(⟨"1", "u", "A", "http://a", 1⟩ : Bookmark)] (fun rs => by simp)

/-! ## Decimal representations are injective

`channelName` embeds the mount id through `toString`/`Nat.repr`; the
following chain relates core's fuel-based digit printer to `Nat.digits`
and derives injectivity, so distinct mount ids give distinct channel
names. -/

theorem toDigitsCore_eq_digits (f : Nat) :
    ∀ (n : Nat) (ds : List Char), 0 < n → n < 10 ^ f →
      Nat.toDigitsCore 10 f n ds
        = ((Nat.digits 10 n).map Nat.digitChar).reverse ++ ds := by
  induction f with
  | zero =>
      intro n ds hn hf
      simp at hf
      omega
  | succ f ih =>
      intro n ds hn hf
      have hdig : Nat.digits 10 n = (n % 10) :: Nat.digits 10 (n / 10) :=
        Nat.digits_def' (by norm_num) hn
      by_cases hq : n / 10 = 0
      · have hcore : Nat.toDigitsCore 10 (f + 1) n ds
            = Nat.digitChar (n % 10) :: ds := by
          simp [Nat.toDigitsCore, hq]
        rw [hcore, hdig, hq]
        simp
      · have hstep : Nat.toDigitsCore 10 (f + 1) n ds
            = Nat.toDigitsCore 10 f (n / 10)
                (Nat.digitChar (n % 10) :: ds) := by
          simp [Nat.toDigitsCore, hq]
        have hq2 : n / 10 < 10 ^ f := by
          rw [Nat.div_lt_iff_lt_mul (by norm_num)]
          calc n < 10 ^ (f + 1) := hf
            _ = 10 ^ f * 10 := by rw [pow_succ]
        rw [hstep, ih (n / 10) _ (Nat.pos_of_ne_zero hq) hq2, hdig]
        simp

theorem toDigits_ten_eq (n : Nat) (hn : 0 < n) :
    Nat.toDigits 10 n = ((Nat.digits 10 n).map Nat.digitChar).reverse := by
  have h1 : n < 10 ^ (n + 1) := by
    calc n < 10 ^ n := Nat.lt_pow_self (by norm_num) n
      _ ≤ 10 ^ (n + 1) := Nat.pow_le_pow_right (by norm_num) (Nat.le_succ n)
  rw [Nat.toDigits, toDigitsCore_eq_digits (n + 1) n [] hn h1,
    List.append_nil]

theorem digitChar_inj_lt {d e : Nat} (hd : d < 10) (he : e < 10)
    (h : Nat.digitChar d = Nat.digitChar e) : d = e := by
  interval_cases d <;> interval_cases e <;> revert h <;> decide

theorem map_digitChar_inj :
    ∀ (l1 l2 : List Nat), (∀ x ∈ l1, x < 10) → (∀ x ∈ l2, x < 10) →
      l1.map Nat.digitChar = l2.map Nat.digitChar → l1 = l2 := by
  intro l1
  induction l1 with
  | nil =>
      intro l2 _ _ h
      cases l2 with
      | nil => rfl
      | cons b t => simp at h
  | cons a t ih =>
      intro l2 h1 h2 h
      cases l2 with
      | nil => simp at h
      | cons b t2 =>
          simp only [List.map_cons, List.cons.injEq] at h
          have ha : a = b := digitChar_inj_lt
            (h1 a (List.mem_cons_self _ _)) (h2 b (List.mem_cons_self _ _))
            h.1
          rw [ha, ih t2 (fun x hx => h1 x (List.mem_cons_of_mem _ hx))
            (fun x hx => h2 x (List.mem_cons_of_mem _ hx)) h.2]

theorem toDigits_ten_ne_zero {n : Nat} (hn : 0 < n) :
    Nat.toDigits 10 n ≠ Nat.toDigits 10 0 := by
  intro h
  rw [toDigits_ten_eq n hn] at h
  have h0 : Nat.toDigits 10 0 = ['0'] := rfl
  rw [h0] at h
  have h1 : (Nat.digits 10 n).map Nat.digitChar = ['0'] := by
    have h2 := congrArg List.reverse h
    simpa using h2
  have h3 : Nat.digits 10 n = [0] :=
    map_digitChar_inj _ _
      (fun x hx => Nat.digits_lt_base (by norm_num) hx)
      (by intro x hx; simp at hx; omega) (by rw [h1]; rfl)
  have h4 := Nat.ofDigits_digits 10 n
  rw [h3] at h4
  simp [Nat.ofDigits] at h4
  omega

theorem toDigits_ten_injective {m n : Nat}
    (h : Nat.toDigits 10 m = Nat.toDigits 10 n) : m = n := by
  rcases Nat.eq_zero_or_pos m with hm | hm
  · rcases Nat.eq_zero_or_pos n with hn | hn
    · omega
    · subst hm
      exact absurd h.symm (toDigits_ten_ne_zero hn)
  · rcases Nat.eq_zero_or_pos n with hn | hn
    · subst hn
      exact absurd h (toDigits_ten_ne_zero hm)
    · rw [toDigits_ten_eq m hm, toDigits_ten_eq n hn] at h
      have h1 : (Nat.digits 10 m).map Nat.digitChar
          = (Nat.digits 10 n).map Nat.digitChar := by
        have h2 := congrArg List.reverse h
        simpa using h2
      exact Nat.digits.injective 10 (map_digitChar_inj _ _
        (fun x hx => Nat.digits_lt_base (by norm_num) hx)
        (fun x hx => Nat.digits_lt_base (by norm_num) hx) h1)

theorem natRepr_injective {m n : Nat} (h : Nat.repr m = Nat.repr n) :
    m = n := by
  have hd : Nat.toDigits 10 m = Nat.toDigits 10 n := by
    have h2 := congrArg String.data h
    simpa [Nat.repr, List.asString] using h2
  exact toDigits_ten_injective hd

theorem channelName_inj (u : String) {m n : Nat}
    (h : channelName u m = channelName u n) : m = n := by
  have hdata := congrArg String.data h
  simp only [channelName, String.data_append, List.append_assoc] at hdata
  have h1 := List.append_cancel_left hdata
  have h2 := List.append_cancel_left h1
  have h3 := List.append_cancel_left h2
  exact natRepr_injective (String.ext h3)

theorem mountIds_mem_gt (n : Nat) :
    ∀ (c : Nat), ∀ m ∈ mountIds c n, c < m := by
  induction n with
  | zero =>
      intro c m hm
      cases hm
  | succ n ih =>
      intro c m hm
      have hunf : mountIds c (n + 1) = (c + 1) :: mountIds (c + 1) n := rfl
      rw [hunf] at hm
      rcases List.mem_cons.mp hm with rfl | hm2
      · exact Nat.lt_succ_self c
      · exact Nat.lt_trans (Nat.lt_succ_self c) (ih (c + 1) m hm2)

/-- **C9** Distinct activation identity: the epochs handed out by the
mount counter to successive activations are strictly increasing — each
activation's epoch exceeds every previously assigned one — and therefore
any two distinct activations subscribe under distinct realtime channel
names for the same user. -/
theorem activation_epochs_distinct (c n : Nat) (u : String) :
    (mountIds c n).Pairwise (fun a b => a < b) ∧
    (mountIds c n).Pairwise
      (fun a b => channelName u a ≠ channelName u b) := by
  have hp : ∀ (c : Nat), (mountIds c n).Pairwise (fun a b => a < b) := by
    induction n with
    | zero =>
        intro c
        exact List.Pairwise.nil
    | succ n ih =>
        intro c
        have hunf : mountIds c (n + 1) = (c + 1) :: mountIds (c + 1) n := rfl
        rw [hunf]
        exact List.Pairwise.cons
          (fun m hm => mountIds_mem_gt n (c + 1) m hm) (ih (c + 1))
  refine ⟨hp c, (hp c).imp ?_⟩
  intro a b hab heq
  exact absurd (channelName_inj u heq) (Nat.ne_of_lt hab)
